import Mathlib

/-!
Verification development for the rosekv write-ahead log (WAL).

The development shallowly embeds the two core components:

* `Segment` (src: segment header, class `rosekv::Segment`): the on-disk
  chunked record format.  A segment file is modelled as a `List Nat` of
  byte values; the write cursor `offset_` is a `Nat`.
* `WAL` (src: `wal.cc` / `wal.hh`, class `rosekv::WAL`): the segment
  roster (a `std::map<std::string, unique_ptr<Segment>>`, modelled as an
  association list with lexicographically ordered byte-string keys),
  io statistics and the write/sync entry points.

Machine integers: `uint16_t`/`uint32_t` stores are modelled with explicit
`% 256` decompositions; the one place where C++ unsigned 64-bit wrap-around
is observable (`int64 - size_t` mixed subtraction in `WAL::Write`) is
modelled by `wsub64`.
-/

namespace RoseKV

/-- Little-endian bytes of a 32-bit store (`kiwi::LittleEndian::PutUint32`). -/
def putUint32LE (n : Nat) : List Nat :=
  [n % 256, n / 256 % 256, n / 65536 % 256, n / 16777216 % 256]

/-- One shift-and-conditionally-xor step of the reflected CRC-32
(polynomial `0xEDB88320`). -/
def crc32Round (c : Nat) : Nat :=
  if c % 2 = 1 then Nat.xor (c / 2) 0xEDB88320 else c / 2

/-- Fold one input byte into a running CRC-32 value (reflected algorithm). -/
def crc32Byte (crc b : Nat) : Nat :=
  (List.range 8).foldl (fun c _ => crc32Round c) (Nat.xor crc (b % 256))

/-- `kiwi::Crc32(crc, bytes)`: incremental CRC-32 update over a byte span,
with no pre- or post-xor (the source chains from an initial value of 0). -/
def crc32Update (crc : Nat) (bytes : List Nat) : Nat :=
  bytes.foldl crc32Byte crc

/-- `rosekv::Segment::ChunkType` (segment header lines 26-31). -/
inductive ChunkType where
  | kFull
  | kFirst
  | kMiddle
  | kLast
deriving DecidableEq, Repr

/-- The on-disk byte of a chunk type (`uint8_t` enum values 0..3). -/
def ChunkType.toByte : ChunkType → Nat
  | .kFull => 0
  | .kFirst => 1
  | .kMiddle => 2
  | .kLast => 3

/-- `Segment::kChunkHeaderSize = sizeof(ChunkHeader)` with
`#pragma pack(1)`: 4 (crc) + 2 (len) + 1 (type) = 7. -/
def kChunkHeaderSize : Nat := 7

/-- `Segment::kMaxBlockSize = 32768`. -/
def kMaxBlockSize : Nat := 32768

/-- `Segment::kMaxPayLoad = kMaxBlockSize - kChunkHeaderSize = 32761`. -/
def kMaxPayLoad : Nat := kMaxBlockSize - kChunkHeaderSize

/-- State of a `rosekv::Segment`: the byte contents of its file and the
write cursor `offset_`.  The file handle itself, `is_closed_` and the
scratch read buffer carry no information relevant to the verified
operations and are omitted. -/
structure Segment where
  file : List Nat
  offset : Nat
deriving Repr

namespace Segment

/-- `Segment::Segment(filepath)`: the constructor opens the file with
`kFlagOpenAlways | kFlagRead | kFlagWrite | kFlagAppend` — the file may
already exist with `contents` — and leaves the member initializer
`offset_ = 0` untouched (it does NOT read the file size). -/
def ofFile (contents : List Nat) : Segment :=
  { file := contents, offset := 0 }

/-- `Segment::ComputeRequiredSpace(data)`:
`std::div(data.size(), kMaxPayLoad)` yields `(nblocks, remain)`;
result is `nblocks * kMaxBlockSize + remain + (remain == 0 ? 0 : kChunkHeaderSize)`. -/
def ComputeRequiredSpace (len : Nat) : Nat :=
  len / kMaxPayLoad * kMaxBlockSize + len % kMaxPayLoad +
    (if len % kMaxPayLoad = 0 then 0 else kChunkHeaderSize)

/-- `Segment::AvailableSpaceInCurrentBlock()`:
`kMaxBlockSize - offset_ % kMaxBlockSize`. -/
def availableSpace (off : Nat) : Nat :=
  kMaxBlockSize - off % kMaxBlockSize

/-- `Segment::EncodeDataToChunk(data, type)`: builds the 7-byte header —
`len` written little-endian at offset 4 (`uint16_t` truncation), the type
byte at offset 6, then the CRC over header bytes 4..6 followed by the
payload is stored little-endian at offset 0 — and chains the payload
after the header. -/
def EncodeDataToChunk (data : List Nat) (ty : ChunkType) : List Nat :=
  let lenLo := data.length % 256
  let lenHi := data.length / 256 % 256
  let crc := crc32Update (crc32Update 0 [lenLo, lenHi, ty.toByte]) data
  putUint32LE crc ++ [lenLo, lenHi, ty.toByte] ++ data

/-- The cursor after `Segment::Encode(data, type)`: `offset_` advances by
the chunk length (7 + payload), and if the space then left in the block
is `<= kChunkHeaderSize` the zero padding advances it to the block
boundary as well. -/
def encodeEnd (off : Nat) (data : List Nat) : Nat :=
  if availableSpace (off + kChunkHeaderSize + data.length) ≤ kChunkHeaderSize then
    off + kChunkHeaderSize + data.length + availableSpace (off + kChunkHeaderSize + data.length)
  else off + kChunkHeaderSize + data.length

/-- The bytes `Segment::Encode(data, type)` adds to the output chain: the
encoded chunk, followed by `sz` zero bytes of padding when the remaining
space `sz` of the block is `<= kChunkHeaderSize`. -/
def encodeBytes (off : Nat) (data : List Nat) (ty : ChunkType) : List Nat :=
  if availableSpace (off + kChunkHeaderSize + data.length) ≤ kChunkHeaderSize then
    EncodeDataToChunk data ty
      ++ List.replicate (availableSpace (off + kChunkHeaderSize + data.length)) 0
  else EncodeDataToChunk data ty

/-- The `while` loop of `Segment::Append` (source lines 94-102): keep
emitting `kMiddle` chunks that fill the current block's payload capacity
while the remaining span exceeds it, then emit the `kLast` chunk.
Each list element records (start offset, chunk type, payload).

The recursion is driven by `fuel`; every reachable iteration consumes at
least one payload byte, so `fuel = subspan.length` always suffices (the
fuel-exhausted base case closes with the `kLast` chunk exactly like the
loop exit). -/
def appendChunks : Nat → Nat → List Nat → List (Nat × ChunkType × List Nat) × Nat
  | 0, off, subspan => ([(off, ChunkType.kLast, subspan)], encodeEnd off subspan)
  | fuel + 1, off, subspan =>
    let avail := availableSpace off
    if subspan.length > avail - kChunkHeaderSize then
      let middle := subspan.take (avail - kChunkHeaderSize)
      let rest := subspan.drop (avail - kChunkHeaderSize)
      let t := appendChunks fuel (encodeEnd off middle) rest
      ((off, ChunkType.kMiddle, middle) :: t.1, t.2)
    else
      ([(off, ChunkType.kLast, subspan)], encodeEnd off subspan)

/-- The chunk layout `Segment::Append` chooses for `data` when the write
cursor stands at `off`, together with the cursor after the append:
one `kFull` chunk when the payload fits the current block's capacity
(`avail - kChunkHeaderSize`), otherwise a `kFirst` chunk with exactly
that capacity followed by the `kMiddle`/`kLast` chunks of the loop. -/
def appendPlan (off : Nat) (data : List Nat) : List (Nat × ChunkType × List Nat) × Nat :=
  let avail := availableSpace off
  if data.length ≤ avail - kChunkHeaderSize then
    ([(off, ChunkType.kFull, data)], encodeEnd off data)
  else
    let first := data.take (avail - kChunkHeaderSize)
    let subspan := data.drop (avail - kChunkHeaderSize)
    let t := appendChunks subspan.length (encodeEnd off first) subspan
    ((off, ChunkType.kFirst, first) :: t.1, t.2)

/-- Renders a chunk plan to the byte chain `Segment::Append` writes:
each chunk's `Encode` output (chunk bytes plus any block padding) in
order. -/
def planRender : List (Nat × ChunkType × List Nat) → List Nat
  | [] => []
  | (off, ty, d) :: rest => encodeBytes off d ty ++ planRender rest

/-- `Segment::Append(data)`: snapshots `offset_`, encodes the chunk chain
(advancing `offset_` through `Encode`), writes the whole chain at the
file's current end (`WriteIOBufAtCurrentPos` on a file opened with
`kFlagAppend` appends), and returns the snapshot. -/
def Append (s : Segment) (data : List Nat) : Segment × Nat :=
  let t := appendPlan s.offset data
  ({ file := s.file ++ planRender t.1, offset := t.2 }, s.offset)

/-- `Segment::GetAlignedReadOffset(offset)`: if the remainder of the
block holding `offset` is `<= kChunkHeaderSize` the offset lies in block
padding; skip to the next block boundary. -/
def GetAlignedReadOffset (off : Nat) : Nat :=
  if availableSpace off ≤ kChunkHeaderSize then off + availableSpace off else off

/-- The read loop of `Segment::ReadAt` over file contents `l`:
align the offset, decode the chunk header (crc 4 bytes LE, len 2 bytes
LE, type 1 byte — `Segment::Decode`), append the payload, stop on
`kLast`/`kFull`, otherwise continue at `offset + header + len`.
`Decode`'s `CHECK`s that the header and payload reads return the
requested byte counts are modelled by the bounds tests (`none` = the
process aborts).  `fuel` bounds the iteration count; a successful C++
run advances the offset by at least 7 bytes per iteration while staying
inside the file, so `l.length + 1` iterations always suffice. -/
def readChunks (l : List Nat) : Nat → Nat → Option (List Nat)
  | 0, _ => none
  | fuel + 1, offset =>
    let o := GetAlignedReadOffset offset
    if o + kChunkHeaderSize ≤ l.length then
      let len := l.getD (o + 4) 0 + 256 * l.getD (o + 5) 0
      let ty := l.getD (o + 6) 0
      if o + kChunkHeaderSize + len ≤ l.length then
        let d := (l.drop (o + kChunkHeaderSize)).take len
        if ty = ChunkType.kLast.toByte ∨ ty = ChunkType.kFull.toByte then
          some d
        else
          match readChunks l fuel (o + kChunkHeaderSize + len) with
          | some rest => some (d ++ rest)
          | none => none
      else none
    else none

/-- `Segment::ReadAt(offset)`: reconstruct the record stored at `offset`. -/
def ReadAt (s : Segment) (off : Nat) : Option (List Nat) :=
  readChunks s.file (s.file.length + 1) off

/-- `Segment::Size()`: returns `offset_`. -/
def Size (s : Segment) : Nat := s.offset

end Segment

/-- `rosekv::WALError` (`error_code.hh`). -/
inductive WALError where
  | kTooLargeData
deriving DecidableEq, Repr

/-- The fields of `rosekv::Options` the verified operations read
(`options.hh`; `wal_dir`, `file_extension_`, `sync_interval_ms`,
`compression_enabled` and `verbose_logging` are unused by the modelled
code paths).  `max_segment_sz` and `sync_bytes_threshold` are `int64_t`
in the source; every configuration of interest is non-negative, so they
are modelled as `Nat`. -/
structure Options where
  max_segment_sz : Nat
  sync_bytes_threshold : Nat
  sync_per_write : Bool
deriving Repr

/-- `rosekv::WAL::IOStats` (`wal.hh` lines 16-27). -/
structure IOStats where
  total_bytes_written : Nat
  total_write_op_count : Nat
  cur_bytes_written : Nat
  cur_write_op_count : Nat
  sync_op_count : Nat
deriving DecidableEq, Repr

/-- `std::less<std::string>`: lexicographic byte comparison, the order of
the roster map `std::map<std::string, unique_ptr<Segment>>`. -/
def lexLt : List Nat → List Nat → Bool
  | [], [] => false
  | [], _ :: _ => true
  | _ :: _, [] => false
  | a :: as, b :: bs => if a < b then true else if b < a then false else lexLt as bs

/-- The bytes of `rosekv::kDefSegFileExtension` = `".seg"`. -/
def kDefSegFileExtension : List Nat := [46, 115, 101, 103]

/-- The basename `std::to_string(id) + kDefSegFileExtension` built by
`WAL::NewSegment`: decimal digits of `id` followed by `".seg"`. -/
def segBasename (id : Nat) : List Nat :=
  (Nat.toDigits 10 id).map Char.toNat ++ kDefSegFileExtension

/-- State of a `rosekv::WAL`.  The roster `segments_` is modelled as an
association list from basename bytes to segment state; `std::map` keeps
keys unique, and its iteration-order maximum (`rbegin()`) is recovered by
`maxEntry` below.  `next_segment_id_` is `int` in the source and is never
initialized by the constructor (indeterminate), so the model threads it
explicitly. -/
structure WAL where
  options : Options
  segments : List (List Nat × Segment)
  io_stats : IOStats
  next_segment_id : Nat
deriving Repr

namespace WAL

/-- The entry of the roster with the lexicographically greatest key —
what dereferencing `segments_.rbegin()` yields on a non-empty
`std::map<std::string, ...>`; `none` models the undefined behaviour of
dereferencing `rbegin()` of an empty map. -/
def maxEntry : List (List Nat × Segment) → Option (List Nat × Segment)
  | [] => none
  | e :: es =>
    match maxEntry es with
    | none => some e
    | some m => if lexLt e.1 m.1 then some m else some e

/-- `WAL::GetActiveSegment()`: `segments_.rbegin()->second` — the entry
with the greatest key of the string-keyed map (undefined behaviour,
modelled `none`, when the roster is empty). -/
def GetActiveSegment (w : WAL) : Option (List Nat × Segment) :=
  maxEntry w.segments

/-- Whether a key is already present in the roster. -/
def hasKey (segs : List (List Nat × Segment)) (key : List Nat) : Bool :=
  segs.any (fun e => e.1 = key)

/-- `WAL::WAL(options)`: after creating the directory, every regular file
whose extension is `kDefSegFileExtension` is loaded as a Segment keyed by
its basename (`segments_.emplace(fp.BaseName(), make_unique<Segment>(fp))`).
`files` lists (basename bytes, file contents) of the directory entries;
the extension test is modelled as a suffix match.  `io_stats_` and
`next_segment_id_` are NOT initialized by the constructor; the model
takes their (indeterminate) initial values as parameters. -/
def ofDir (opts : Options) (files : List (List Nat × List Nat))
    (stats0 : IOStats) (id0 : Nat) : WAL :=
  { options := opts
    segments :=
      (files.filter (fun f => kDefSegFileExtension.isSuffixOf f.1)).map
        (fun f => (f.1, Segment.ofFile f.2))
    io_stats := stats0
    next_segment_id := id0 }

/-- `WAL::NewSegment()`: increments `next_segment_id_`, builds the
basename `to_string(id) + kDefSegFileExtension`, emplaces a Segment over
the (newly created, empty) file — `std::map::emplace` leaves the map
unchanged when the key exists — and returns `GetActiveSegment()`. -/
def NewSegment (w : WAL) : WAL × Option (List Nat × Segment) :=
  let id := w.next_segment_id + 1
  let basename := segBasename id
  let segs :=
    if hasKey w.segments basename then w.segments
    else w.segments ++ [(basename, Segment.ofFile [])]
  let w' := { w with segments := segs, next_segment_id := id }
  (w', GetActiveSegment w')

/-- `WAL::UpdateIOStat(nbytes)`. -/
def UpdateIOStat (st : IOStats) (nbytes : Nat) : IOStats :=
  { st with
    total_bytes_written := st.total_bytes_written + nbytes
    total_write_op_count := st.total_write_op_count + 1
    cur_bytes_written := st.cur_bytes_written + nbytes
    cur_write_op_count := st.cur_write_op_count + 1 }

/-- `WAL::NeedSync()`: true when `sync_per_write` is set, or when
`sync_bytes_threshold != 0` and — comparing a write-operation COUNT
against the byte threshold, exactly as the source does —
`io_stats_.cur_write_op_count >= options_.sync_bytes_threshold`. -/
def NeedSync (w : WAL) : Bool :=
  if w.options.sync_per_write then true
  else if w.options.sync_bytes_threshold ≠ 0 ∧
      w.io_stats.cur_write_op_count ≥ w.options.sync_bytes_threshold then true
  else false

/-- `WAL::Sync()`: the body in the source is empty — no segment is
synced and no counter is updated. -/
def Sync (w : WAL) : WAL := w

/-- Replaces the segment stored under `key` (the roster owns its
segments; `seg->Append` mutates the mapped value in place). -/
def updateSeg (segs : List (List Nat × Segment)) (key : List Nat)
    (seg : Segment) : List (List Nat × Segment) :=
  segs.map (fun e => if e.1 = key then (e.1, seg) else e)

/-- Unsigned 64-bit subtraction: in `WAL::Write` the `int64_t`
`max_segment_sz` meets `size_t` operands (`kChunkHeaderSize` after
integer promotion stays signed, but `seg->Size()` is `size_t`), so the
usual arithmetic conversions evaluate `a - b` modulo `2^64`. -/
def wsub64 (a b : Nat) : Nat := (2 ^ 64 + a - b % 2 ^ 64) % 2 ^ 64

/-- `WAL::Write(data, ec)`: under the exclusive lock, fail with
`kTooLargeData` when `data.size() > max_segment_sz - kChunkHeaderSize`;
otherwise take `GetActiveSegment()` — dereferencing `rbegin()` of a
possibly empty map, `none` models that undefined behaviour — roll over
to `NewSegment()` when `ComputeRequiredSpace(data) >
max_segment_sz - seg->Size()`, append, and update the io stats.
(`NeedSync()`/`seg->Sync()` only flush the file and change no modelled
state.)  The result pairs the new WAL state with the error code `ec`. -/
def Write (w : WAL) (data : List Nat) : Option (WAL × Option WALError) :=
  if data.length > wsub64 w.options.max_segment_sz kChunkHeaderSize then
    some (w, some WALError.kTooLargeData)
  else
    match GetActiveSegment w with
    | none => none
    | some (key, seg) =>
      let reqSpace := Segment.ComputeRequiredSpace data.length
      let t :=
        if reqSpace > wsub64 w.options.max_segment_sz (Segment.Size seg) then
          NewSegment w
        else (w, some (key, seg))
      match t.2 with
      | none => none
      | some (key1, seg1) =>
        let a := Segment.Append seg1 data
        some
          ({ t.1 with
              segments := updateSeg t.1.segments key1 a.1
              io_stats := UpdateIOStat t.1.io_stats data.length }, none)

end WAL

/-! ### Auxiliary quantities for the layout proofs -/

namespace Segment

/-- The bytes the final (`kLast`/`kFull`) chunk of payload remainder `r`
adds when it starts at a block boundary: the whole remaining block when
the chunk (plus padding rule) consumes it, else header + payload. -/
def tailAdv (r : Nat) : Nat :=
  if 32754 ≤ r then kMaxBlockSize else kChunkHeaderSize + r

/-- Total bytes the `kMiddle`/`kLast` chunk chain for a span of `n ≥ 1`
payload bytes adds when it starts at a block boundary. -/
def chainAdv (n : Nat) : Nat :=
  (n - 1) / kMaxPayLoad * kMaxBlockSize + tailAdv (n - (n - 1) / kMaxPayLoad * kMaxPayLoad)

end Segment

namespace Segment

lemma length_EncodeDataToChunk (d : List Nat) (ty : ChunkType) :
    (EncodeDataToChunk d ty).length = kChunkHeaderSize + d.length := by
  simp [EncodeDataToChunk, putUint32LE, kChunkHeaderSize]
  omega

/-- `Encode` output is the encoded chunk followed by at most 7 zero
padding bytes. -/
lemma encodeBytes_eq_pad (off : Nat) (d : List Nat) (ty : ChunkType) :
    ∃ p, p ≤ kChunkHeaderSize ∧
      encodeBytes off d ty = EncodeDataToChunk d ty ++ List.replicate p 0 := by
  unfold encodeBytes
  split
  · next h => exact ⟨_, h, rfl⟩
  · exact ⟨0, by simp [kChunkHeaderSize], by simp⟩

/-- `Encode` advances the cursor by exactly the number of bytes it
emits. -/
lemma encodeBytes_length (off : Nat) (d : List Nat) (ty : ChunkType) :
    (encodeBytes off d ty).length = encodeEnd off d - off ∧ off ≤ encodeEnd off d := by
  unfold encodeBytes encodeEnd
  have h := length_EncodeDataToChunk d ty
  split
  · simp only [List.length_append, List.length_replicate, h]
    omega
  · simp only [h]
    omega

/-- When a chunk ends exactly at a block boundary, `Encode` emits no
padding. -/
lemma encode_no_pad (off : Nat) (d : List Nat) (ty : ChunkType)
    (h : (off + kChunkHeaderSize + d.length) % kMaxBlockSize = 0) :
    encodeBytes off d ty = EncodeDataToChunk d ty
    ∧ encodeEnd off d = off + kChunkHeaderSize + d.length := by
  have hav : availableSpace (off + kChunkHeaderSize + d.length) = kMaxBlockSize := by
    unfold availableSpace
    rw [h]
    omega
  have hno : ¬ availableSpace (off + kChunkHeaderSize + d.length) ≤ kChunkHeaderSize := by
    rw [hav]; simp [kMaxBlockSize, kChunkHeaderSize]
  unfold encodeBytes encodeEnd
  rw [if_neg hno, if_neg hno]
  exact ⟨rfl, rfl⟩

/-- Bytes of the middle section of a three-part concatenation. -/
lemma getD_append_middle (a b c : List Nat) (i : Nat) (hi : i < b.length) :
    (a ++ b ++ c).getD (a.length + i) 0 = b.getD i 0 := by
  rw [List.append_assoc]
  rw [List.getD_append_right a (b ++ c) 0 (a.length + i) (by omega)]
  rw [Nat.add_sub_cancel_left]
  exact List.getD_append b c 0 i hi

/-- Decoding at the start of an encoded chunk inside a larger file:
one step of the `ReadAt` loop recovers the chunk's payload and either
stops (`kLast`/`kFull`) or continues right after the payload. -/
lemma readChunks_at_chunk (pre d rest : List Nat) (ty : ChunkType) (fuel : Nat)
    (hav : pre.length % kMaxBlockSize + kChunkHeaderSize < kMaxBlockSize)
    (hd : d.length < 65536) :
    readChunks (pre ++ EncodeDataToChunk d ty ++ rest) (fuel + 1) pre.length =
      if ty = ChunkType.kLast ∨ ty = ChunkType.kFull then some d
      else
        match readChunks (pre ++ EncodeDataToChunk d ty ++ rest) fuel
            (pre.length + kChunkHeaderSize + d.length) with
        | some r => some (d ++ r)
        | none => none := by
  have hlen : (pre ++ EncodeDataToChunk d ty ++ rest).length
      = pre.length + (kChunkHeaderSize + d.length) + rest.length := by
    simp [length_EncodeDataToChunk]
    omega
  have halign : GetAlignedReadOffset pre.length = pre.length := by
    unfold GetAlignedReadOffset availableSpace
    rw [if_neg (by omega)]
  have hsplit1 : pre ++ EncodeDataToChunk d ty ++ rest
      = (pre ++ putUint32LE (crc32Update (crc32Update 0
          [d.length % 256, d.length / 256 % 256, ty.toByte]) d))
        ++ [d.length % 256, d.length / 256 % 256, ty.toByte] ++ (d ++ rest) := by
    simp [EncodeDataToChunk, List.append_assoc]
  have hl1 : (pre ++ putUint32LE (crc32Update (crc32Update 0
      [d.length % 256, d.length / 256 % 256, ty.toByte]) d)).length
      = pre.length + 4 := by
    simp [putUint32LE]
  have hgetD : ∀ i, i < 3 →
      (pre ++ EncodeDataToChunk d ty ++ rest).getD (pre.length + 4 + i) 0
      = [d.length % 256, d.length / 256 % 256, ty.toByte].getD i 0 := by
    intro i hi
    rw [hsplit1, ← hl1]
    exact getD_append_middle _ _ _ i (by simpa using hi)
  have h4 := hgetD 0 (by omega)
  have h5 := hgetD 1 (by omega)
  have h6 := hgetD 2 (by omega)
  rw [show pre.length + 4 + 0 = pre.length + 4 by omega] at h4
  rw [show pre.length + 4 + 1 = pre.length + 5 by omega] at h5
  rw [show pre.length + 4 + 2 = pre.length + 6 by omega] at h6
  simp only [List.getD_cons_zero, List.getD_cons_succ] at h4 h5 h6
  have hlenval : (pre ++ EncodeDataToChunk d ty ++ rest).getD (pre.length + 4) 0
      + 256 * (pre ++ EncodeDataToChunk d ty ++ rest).getD (pre.length + 5) 0
      = d.length := by
    rw [h4, h5]; omega
  have hsplit2 : pre ++ EncodeDataToChunk d ty ++ rest
      = (pre ++ (putUint32LE (crc32Update (crc32Update 0
          [d.length % 256, d.length / 256 % 256, ty.toByte]) d)
          ++ [d.length % 256, d.length / 256 % 256, ty.toByte])) ++ (d ++ rest) := by
    simp [EncodeDataToChunk, List.append_assoc]
  have hl2 : (pre ++ (putUint32LE (crc32Update (crc32Update 0
      [d.length % 256, d.length / 256 % 256, ty.toByte]) d)
      ++ [d.length % 256, d.length / 256 % 256, ty.toByte])).length
      = pre.length + kChunkHeaderSize := by
    simp [putUint32LE, kChunkHeaderSize]
  have hdata : ((pre ++ EncodeDataToChunk d ty ++ rest).drop
      (pre.length + kChunkHeaderSize)).take d.length = d := by
    rw [hsplit2, ← hl2, List.drop_left]
    exact List.take_left d rest
  rw [readChunks]
  simp only [halign]
  rw [if_pos (show pre.length + kChunkHeaderSize
    ≤ (pre ++ EncodeDataToChunk d ty ++ rest).length by rw [hlen]; omega)]
  rw [hlenval, h6, hdata]
  rw [if_pos (show pre.length + kChunkHeaderSize + d.length
    ≤ (pre ++ EncodeDataToChunk d ty ++ rest).length by rw [hlen]; omega)]
  cases ty <;> simp [ChunkType.toByte]

lemma kMaxPayLoad_eq : kMaxPayLoad = 32761 := rfl

lemma kMaxBlockSize_eq : kMaxBlockSize = 32768 := rfl

lemma kChunkHeaderSize_eq : kChunkHeaderSize = 7 := rfl

lemma availableSpace_aligned (off : Nat) (h : off % kMaxBlockSize = 0) :
    availableSpace off = kMaxBlockSize := by
  unfold availableSpace
  omega

lemma chainAdv_base (n : Nat) (h1 : 1 ≤ n) (h2 : n ≤ kMaxPayLoad) :
    chainAdv n = tailAdv n := by
  unfold chainAdv
  rw [kMaxPayLoad_eq] at *
  have hq : (n - 1) / 32761 = 0 := by omega
  rw [hq]
  simp

lemma chainAdv_step (n : Nat) (h : kMaxPayLoad < n) :
    chainAdv n = kMaxBlockSize + chainAdv (n - kMaxPayLoad) := by
  unfold chainAdv
  rw [kMaxPayLoad_eq, kMaxBlockSize_eq] at *
  have hq : (n - 1) / 32761 = (n - 32761 - 1) / 32761 + 1 := by omega
  have hr : n - (n - 1) / 32761 * 32761
      = n - 32761 - (n - 32761 - 1) / 32761 * 32761 := by omega
  rw [hr, hq]
  generalize (tailAdv (n - 32761 - (n - 32761 - 1) / 32761 * 32761)) = T
  ring_nf

/-- The combined specification of the `kMiddle`/`kLast` chunk-emitting
loop: payload reassembly, chunk types, block alignment and bounds, byte
accounting, and readability of the rendered chain. -/
def ChunksSpec (off : Nat) (subspan : List Nat)
    (ac : List (Nat × ChunkType × List Nat) × Nat) : Prop :=
  ((ac.1.map fun c => c.2.2).flatten = subspan)
  ∧ ac.1.map (fun c => c.2.1)
      = List.replicate (ac.1.length - 1) ChunkType.kMiddle ++ [ChunkType.kLast]
  ∧ (∀ c ∈ ac.1,
      c.1 % kMaxBlockSize = 0
      ∧ (c.2.1 = ChunkType.kMiddle → c.2.2.length = kMaxPayLoad)
      ∧ c.2.2.length + kChunkHeaderSize ≤ kMaxBlockSize)
  ∧ (planRender ac.1).length = ac.2 - off
  ∧ off ≤ ac.2
  ∧ ac.2 = off + chainAdv subspan.length
  ∧ ac.1.length ≤ (planRender ac.1).length
  ∧ (∀ (pre : List Nat) (F : Nat), pre.length = off → ac.1.length ≤ F →
      readChunks (pre ++ planRender ac.1) F off = some subspan)

lemma chunksSpec_last (off : Nat) (subspan : List Nat)
    (h0 : off % kMaxBlockSize = 0) (h1 : 1 ≤ subspan.length)
    (hn : subspan.length ≤ kMaxPayLoad) :
    ChunksSpec off subspan ([(off, ChunkType.kLast, subspan)], encodeEnd off subspan) := by
  obtain ⟨p, hp, hEB⟩ := encodeBytes_eq_pad off subspan ChunkType.kLast
  have hlen := encodeBytes_length off subspan ChunkType.kLast
  have h0' : off % 32768 = 0 := h0
  have hn' : subspan.length ≤ 32761 := hn
  have hend : off + 7 ≤ encodeEnd off subspan := by
    unfold encodeEnd availableSpace
    simp only [kMaxBlockSize_eq, kChunkHeaderSize_eq]
    split <;> omega
  refine ⟨by simp, by simp, ?_, ?_, hlen.2, ?_, ?_, ?_⟩
  · intro c hc
    simp only [List.mem_singleton] at hc
    subst hc
    refine ⟨h0, by simp, ?_⟩
    show subspan.length + kChunkHeaderSize ≤ kMaxBlockSize
    simp only [kMaxBlockSize_eq, kChunkHeaderSize_eq]
    omega
  · simp only [planRender, List.append_nil]
    exact hlen.1
  · rw [chainAdv_base _ h1 hn]
    unfold encodeEnd availableSpace tailAdv
    simp only [kMaxBlockSize_eq, kChunkHeaderSize_eq]
    split <;> split <;> omega
  · simp only [planRender, List.append_nil, List.length_singleton]
    have h7 : (encodeBytes off subspan ChunkType.kLast).length
        = encodeEnd off subspan - off := hlen.1
    rw [h7]
    omega
  · intro pre F hpre hF
    have hF1 : 1 ≤ F := le_trans (by simp) hF
    obtain ⟨F', rfl⟩ : ∃ F', F = F' + 1 := ⟨F - 1, by omega⟩
    simp only [planRender, List.append_nil]
    rw [hEB, ← List.append_assoc, ← hpre]
    rw [readChunks_at_chunk pre subspan _ ChunkType.kLast F'
      (by simp only [hpre, kMaxBlockSize_eq, kChunkHeaderSize_eq]; omega)
      (by omega)]
    simp

/-- The chunk-emitting loop of `Append` satisfies `ChunksSpec` whenever
it starts at a block boundary with a non-empty span and enough fuel. -/
lemma appendChunks_spec (fuel : Nat) : ∀ (off : Nat) (subspan : List Nat),
    off % kMaxBlockSize = 0 → 1 ≤ subspan.length → subspan.length ≤ fuel →
    ChunksSpec off subspan (appendChunks fuel off subspan) := by
  induction fuel with
  | zero =>
    intro off subspan _ h1 h2
    exact absurd (le_trans h1 h2) (by omega)
  | succ fuel ih =>
    intro off subspan h0 h1 h2
    have h0' : off % 32768 = 0 := h0
    have havail : availableSpace off = kMaxBlockSize := availableSpace_aligned off h0
    by_cases hc : kMaxBlockSize - kChunkHeaderSize < subspan.length
    · -- the loop body: a full-capacity kMiddle chunk, then recurse
      have e1 : kMaxPayLoad = 32761 := rfl
      have e2 : kMaxBlockSize = 32768 := rfl
      have e3 : kChunkHeaderSize = 7 := rfl
      have hc' : kMaxPayLoad < subspan.length := hc
      have hmlen : (subspan.take kMaxPayLoad).length = kMaxPayLoad := by
        rw [List.length_take]
        omega
      have hmod : (off + kChunkHeaderSize + (subspan.take kMaxPayLoad).length)
          % kMaxBlockSize = 0 := by
        show (off + kChunkHeaderSize + (subspan.take kMaxPayLoad).length) % 32768 = 0
        omega
      have hnp := encode_no_pad off (subspan.take kMaxPayLoad) ChunkType.kMiddle hmod
      have hend : encodeEnd off (subspan.take kMaxPayLoad) = off + kMaxBlockSize := by
        have h1 := hnp.2
        omega
      have hoff2 : (off + kMaxBlockSize) % kMaxBlockSize = 0 := by
        show (off + kMaxBlockSize) % 32768 = 0
        omega
      have hdlen : (subspan.drop kMaxPayLoad).length = subspan.length - kMaxPayLoad :=
        List.length_drop _ _
      have hrest1 : 1 ≤ (subspan.drop kMaxPayLoad).length := by omega
      have hrestf : (subspan.drop kMaxPayLoad).length ≤ fuel := by omega
      obtain ⟨ih1, ih2, ih3, ih4, ih5, ih6, ih7, ih8⟩ :=
        ih (off + kMaxBlockSize) (subspan.drop kMaxPayLoad) hoff2 hrest1 hrestf
      have heq : appendChunks (fuel + 1) off subspan
          = ((off, ChunkType.kMiddle, subspan.take kMaxPayLoad) ::
              (appendChunks fuel (off + kMaxBlockSize) (subspan.drop kMaxPayLoad)).1,
             (appendChunks fuel (off + kMaxBlockSize) (subspan.drop kMaxPayLoad)).2) := by
        simp only [appendChunks, havail]
        rw [if_pos hc]
        rw [show kMaxBlockSize - kChunkHeaderSize = kMaxPayLoad from rfl]
        rw [hend]
      have hlen1 : 1 ≤ (appendChunks fuel (off + kMaxBlockSize) (subspan.drop kMaxPayLoad)).1.length := by
        have hconglen := congrArg List.length ih2
        simp only [List.length_map, List.length_append, List.length_replicate,
          List.length_singleton] at hconglen
        omega
      have hEBlen : (encodeBytes off (subspan.take kMaxPayLoad) ChunkType.kMiddle).length
          = kMaxBlockSize := by
        rw [hnp.1, length_EncodeDataToChunk]
        omega
      rw [heq]
      refine ⟨?_, ?_, ?_, ?_, ?_, ?_, ?_, ?_⟩
      · simp only [List.map_cons, List.flatten_cons]
        rw [ih1]
        exact List.take_append_drop _ _
      · simp only [List.map_cons, List.length_cons, Nat.add_sub_cancel]
        rw [ih2]
        obtain ⟨k, hk⟩ : ∃ k,
            (appendChunks fuel (off + kMaxBlockSize) (subspan.drop kMaxPayLoad)).1.length
              = k + 1 :=
          ⟨(appendChunks fuel (off + kMaxBlockSize) (subspan.drop kMaxPayLoad)).1.length - 1,
            by omega⟩
        rw [hk]
        simp [List.replicate_succ]
      · intro c hcm
        rcases List.mem_cons.mp hcm with h | h
        · subst h
          refine ⟨h0, fun _ => hmlen, ?_⟩
          show (subspan.take kMaxPayLoad).length + kChunkHeaderSize ≤ kMaxBlockSize
          omega
        · exact ih3 c h
      · simp only [planRender, List.length_append]
        omega
      · show off ≤ (appendChunks fuel (off + kMaxBlockSize) (subspan.drop kMaxPayLoad)).2
        omega
      · show (appendChunks fuel (off + kMaxBlockSize) (subspan.drop kMaxPayLoad)).2
          = off + chainAdv subspan.length
        have hstep := chainAdv_step subspan.length hc'
        rw [hdlen] at ih6
        omega
      · simp only [planRender, List.length_cons, List.length_append]
        omega
      · intro pre F hpre hF
        simp only [List.length_cons] at hF
        obtain ⟨F', rfl⟩ : ∃ F', F = F' + 1 := ⟨F - 1, by omega⟩
        have hF' : (appendChunks fuel (off + kMaxBlockSize) (subspan.drop kMaxPayLoad)).1.length
            ≤ F' := by omega
        simp only [planRender]
        rw [hnp.1, ← List.append_assoc]
        have hav2 : pre.length % kMaxBlockSize + kChunkHeaderSize < kMaxBlockSize := by
          rw [hpre]
          show off % 32768 + 7 < 32768
          omega
        have hd2 : (subspan.take kMaxPayLoad).length < 65536 := by omega
        have hstep := readChunks_at_chunk pre (subspan.take kMaxPayLoad)
          (planRender (appendChunks fuel (off + kMaxBlockSize) (subspan.drop kMaxPayLoad)).1)
          ChunkType.kMiddle F' hav2 hd2
        rw [hpre] at hstep
        rw [hstep]
        rw [if_neg (by simp)]
        have hpre2 : (pre ++ EncodeDataToChunk (subspan.take kMaxPayLoad) ChunkType.kMiddle).length
            = off + kMaxBlockSize := by
          simp only [List.length_append, length_EncodeDataToChunk, hpre]
          omega
        have harg : off + kChunkHeaderSize + (subspan.take kMaxPayLoad).length
            = off + kMaxBlockSize := by omega
        rw [harg]
        have hread := ih8 (pre ++ EncodeDataToChunk (subspan.take kMaxPayLoad) ChunkType.kMiddle)
          F' hpre2 hF'
        rw [hread]
        simp [List.take_append_drop]
    · -- loop exit: emit the kLast chunk
      have heq : appendChunks (fuel + 1) off subspan
          = ([(off, ChunkType.kLast, subspan)], encodeEnd off subspan) := by
        simp only [appendChunks, havail]
        rw [if_neg hc]
      rw [heq]
      exact chunksSpec_last off subspan h0 h1
        (by rw [kMaxPayLoad_eq]; rw [kMaxBlockSize_eq, kChunkHeaderSize_eq] at hc; omega)

/-- Every `Encode` output is non-empty (it contains at least the 7-byte
header). -/
lemma encodeBytes_pos (off : Nat) (d : List Nat) (ty : ChunkType) :
    1 ≤ (encodeBytes off d ty).length := by
  obtain ⟨p, _, hEB⟩ := encodeBytes_eq_pad off d ty
  rw [hEB]
  simp [length_EncodeDataToChunk, kChunkHeaderSize_eq]
  omega

/-- A rendered plan has at least one byte per chunk. -/
lemma planRender_len_ge (pl : List (Nat × ChunkType × List Nat)) :
    pl.length ≤ (planRender pl).length := by
  induction pl with
  | nil => simp [planRender]
  | cons c rest ihp =>
    obtain ⟨o, ty, d⟩ := c
    simp only [planRender, List.length_cons, List.length_append]
    have := encodeBytes_pos o d ty
    omega

/-- Reading the rendered output of `appendPlan` from the plan's start
offset restores the appended record. -/
lemma appendPlan_read (off : Nat) (data pre : List Nat)
    (hpre : pre.length = off)
    (hav : off % kMaxBlockSize + kChunkHeaderSize < kMaxBlockSize)
    (F : Nat) (hF : (appendPlan off data).1.length ≤ F) :
    readChunks (pre ++ planRender (appendPlan off data).1) F off = some data := by
  have hav' : off % 32768 + 7 < 32768 := hav
  have hQ : availableSpace off = 32768 - off % 32768 := rfl
  have e1 : kMaxPayLoad = 32761 := rfl
  have e2 : kMaxBlockSize = 32768 := rfl
  have e3 : kChunkHeaderSize = 7 := rfl
  by_cases hfull : data.length ≤ availableSpace off - kChunkHeaderSize
  · -- a single kFull chunk
    have heq : appendPlan off data = ([(off, ChunkType.kFull, data)], encodeEnd off data) := by
      simp only [appendPlan]
      rw [if_pos hfull]
    rw [heq] at hF ⊢
    simp only [List.length_singleton] at hF
    obtain ⟨F', rfl⟩ : ∃ F', F = F' + 1 := ⟨F - 1, by omega⟩
    obtain ⟨p, hp, hEB⟩ := encodeBytes_eq_pad off data ChunkType.kFull
    simp only [planRender, List.append_nil]
    rw [hEB, ← List.append_assoc, ← hpre]
    rw [readChunks_at_chunk pre data _ ChunkType.kFull F'
      (by rw [hpre]; exact hav) (by omega)]
    simp
  · -- kFirst followed by the kMiddle/kLast chain
    have heq : appendPlan off data
        = ((off, ChunkType.kFirst, data.take (availableSpace off - kChunkHeaderSize)) ::
            (appendChunks (data.drop (availableSpace off - kChunkHeaderSize)).length
              (encodeEnd off (data.take (availableSpace off - kChunkHeaderSize)))
              (data.drop (availableSpace off - kChunkHeaderSize))).1,
           (appendChunks (data.drop (availableSpace off - kChunkHeaderSize)).length
              (encodeEnd off (data.take (availableSpace off - kChunkHeaderSize)))
              (data.drop (availableSpace off - kChunkHeaderSize))).2) := by
      simp only [appendPlan]
      rw [if_neg hfull]
    have hlong : availableSpace off - kChunkHeaderSize < data.length := by omega
    have hflen : (data.take (availableSpace off - kChunkHeaderSize)).length
        = availableSpace off - kChunkHeaderSize := by
      rw [List.length_take]
      omega
    have hmod : (off + kChunkHeaderSize
        + (data.take (availableSpace off - kChunkHeaderSize)).length) % kMaxBlockSize = 0 := by
      show (off + kChunkHeaderSize
        + (data.take (availableSpace off - kChunkHeaderSize)).length) % 32768 = 0
      omega
    have hnp := encode_no_pad off (data.take (availableSpace off - kChunkHeaderSize))
      ChunkType.kFirst hmod
    have hoff2 : encodeEnd off (data.take (availableSpace off - kChunkHeaderSize))
        % kMaxBlockSize = 0 := by
      rw [hnp.2]
      show (off + kChunkHeaderSize
        + (data.take (availableSpace off - kChunkHeaderSize)).length) % 32768 = 0
      omega
    have hrest1 : 1 ≤ (data.drop (availableSpace off - kChunkHeaderSize)).length := by
      rw [List.length_drop]
      omega
    obtain ⟨sp1, sp2, sp3, sp4, sp5, sp6, sp7, sp8⟩ :=
      appendChunks_spec (data.drop (availableSpace off - kChunkHeaderSize)).length
        (encodeEnd off (data.take (availableSpace off - kChunkHeaderSize)))
        (data.drop (availableSpace off - kChunkHeaderSize)) hoff2 hrest1 le_rfl
    rw [heq] at hF ⊢
    simp only [List.length_cons] at hF
    obtain ⟨F', rfl⟩ : ∃ F', F = F' + 1 := ⟨F - 1, by omega⟩
    have hF' : (appendChunks (data.drop (availableSpace off - kChunkHeaderSize)).length
        (encodeEnd off (data.take (availableSpace off - kChunkHeaderSize)))
        (data.drop (availableSpace off - kChunkHeaderSize))).1.length ≤ F' := by omega
    simp only [planRender]
    rw [hnp.1, ← List.append_assoc]
    have hd2 : (data.take (availableSpace off - kChunkHeaderSize)).length < 65536 := by omega
    have hstep := readChunks_at_chunk pre
      (data.take (availableSpace off - kChunkHeaderSize))
      (planRender (appendChunks (data.drop (availableSpace off - kChunkHeaderSize)).length
        (encodeEnd off (data.take (availableSpace off - kChunkHeaderSize)))
        (data.drop (availableSpace off - kChunkHeaderSize))).1)
      ChunkType.kFirst F' (by rw [hpre]; exact hav) hd2
    rw [hpre] at hstep
    rw [hstep]
    rw [if_neg (by simp)]
    have hpre2 : (pre ++ EncodeDataToChunk
        (data.take (availableSpace off - kChunkHeaderSize)) ChunkType.kFirst).length
        = encodeEnd off (data.take (availableSpace off - kChunkHeaderSize)) := by
      simp only [List.length_append, length_EncodeDataToChunk, hpre]
      have h1 := hnp.2
      omega
    rw [show off + kChunkHeaderSize
        + (data.take (availableSpace off - kChunkHeaderSize)).length
        = encodeEnd off (data.take (availableSpace off - kChunkHeaderSize))
      from hnp.2.symm]
    have hread := sp8 (pre ++ EncodeDataToChunk
        (data.take (availableSpace off - kChunkHeaderSize)) ChunkType.kFirst)
      F' hpre2 hF'
    rw [hread]
    simp [List.take_append_drop]

/-- The stored CRC field of an encoded chunk is the CRC-32 (initial
value 0, no xor-out) of the header bytes at offsets 4..6 followed by the
payload; the CRC field itself is not part of the input, and the payload
occupies the bytes after the 7-byte header. -/
lemma encode_crc (d : List Nat) (ty : ChunkType) :
    (EncodeDataToChunk d ty).take 4
      = putUint32LE (crc32Update (crc32Update 0
          (((EncodeDataToChunk d ty).drop 4).take 3)) d)
    ∧ (EncodeDataToChunk d ty).drop kChunkHeaderSize = d := by
  constructor
  · simp [EncodeDataToChunk, putUint32LE]
  · simp [EncodeDataToChunk, putUint32LE, kChunkHeaderSize]

/-- The number of bytes `Append` emits for a record of length `n ≥ 1`
starting at a block boundary is `chainAdv n`. -/
lemma appendPlan_growth (off : Nat) (data : List Nat)
    (halign : off % kMaxBlockSize = 0) (h1 : 1 ≤ data.length) :
    (planRender (appendPlan off data).1).length = chainAdv data.length := by
  have e1 : kMaxPayLoad = 32761 := rfl
  have e2 : kMaxBlockSize = 32768 := rfl
  have e3 : kChunkHeaderSize = 7 := rfl
  have h0' : off % 32768 = 0 := halign
  have havail := availableSpace_aligned off halign
  by_cases hfull : data.length ≤ availableSpace off - kChunkHeaderSize
  · have heq : appendPlan off data = ([(off, ChunkType.kFull, data)], encodeEnd off data) := by
      simp only [appendPlan]
      rw [if_pos hfull]
    have hdle : data.length ≤ kMaxPayLoad := by omega
    have h6 := (chunksSpec_last off data halign h1 hdle).2.2.2.2.2.1
    rw [heq]
    simp only [planRender, List.append_nil]
    have hEL := encodeBytes_length off data ChunkType.kFull
    have hend : ([(off, ChunkType.kLast, data)], encodeEnd off data).2
        = off + chainAdv data.length := h6
    simp only at hend
    omega
  · have heq : appendPlan off data
        = ((off, ChunkType.kFirst, data.take (availableSpace off - kChunkHeaderSize)) ::
            (appendChunks (data.drop (availableSpace off - kChunkHeaderSize)).length
              (encodeEnd off (data.take (availableSpace off - kChunkHeaderSize)))
              (data.drop (availableSpace off - kChunkHeaderSize))).1,
           (appendChunks (data.drop (availableSpace off - kChunkHeaderSize)).length
              (encodeEnd off (data.take (availableSpace off - kChunkHeaderSize)))
              (data.drop (availableSpace off - kChunkHeaderSize))).2) := by
      simp only [appendPlan]
      rw [if_neg hfull]
    have hlong : availableSpace off - kChunkHeaderSize < data.length := by omega
    have hflen : (data.take (availableSpace off - kChunkHeaderSize)).length
        = availableSpace off - kChunkHeaderSize := by
      rw [List.length_take]
      omega
    have hmod : (off + kChunkHeaderSize
        + (data.take (availableSpace off - kChunkHeaderSize)).length) % kMaxBlockSize = 0 := by
      show (off + kChunkHeaderSize
        + (data.take (availableSpace off - kChunkHeaderSize)).length) % 32768 = 0
      omega
    have hnp := encode_no_pad off (data.take (availableSpace off - kChunkHeaderSize))
      ChunkType.kFirst hmod
    have hoff2 : encodeEnd off (data.take (availableSpace off - kChunkHeaderSize))
        % kMaxBlockSize = 0 := by
      rw [hnp.2]
      show (off + kChunkHeaderSize
        + (data.take (availableSpace off - kChunkHeaderSize)).length) % 32768 = 0
      omega
    have hdrop : (data.drop (availableSpace off - kChunkHeaderSize)).length
        = data.length - (availableSpace off - kChunkHeaderSize) := List.length_drop _ _
    have hrest1 : 1 ≤ (data.drop (availableSpace off - kChunkHeaderSize)).length := by omega
    obtain ⟨sp1, sp2, sp3, sp4, sp5, sp6, sp7, sp8⟩ :=
      appendChunks_spec (data.drop (availableSpace off - kChunkHeaderSize)).length
        (encodeEnd off (data.take (availableSpace off - kChunkHeaderSize)))
        (data.drop (availableSpace off - kChunkHeaderSize)) hoff2 hrest1 le_rfl
    rw [heq]
    simp only [planRender, List.length_append]
    have hEL := encodeBytes_length off (data.take (availableSpace off - kChunkHeaderSize))
      ChunkType.kFirst
    have hnpe := hnp.2
    have hstep := chainAdv_step data.length (by omega)
    have hM2 : data.length - kMaxPayLoad
        = (data.drop (availableSpace off - kChunkHeaderSize)).length := by omega
    rw [hM2] at hstep
    rw [hEL.1, sp4, sp6, hstep]
    omega

/-- `chainAdv` agrees with `ComputeRequiredSpace` exactly when the final
chunk triggers no trailing block padding. -/
lemma chainAdv_eq_requiredSpace (n : Nat) (h0 : 0 < n)
    (hr : n % kMaxPayLoad ≤ 32753) :
    chainAdv n = ComputeRequiredSpace n := by
  unfold chainAdv tailAdv ComputeRequiredSpace
  simp only [kMaxPayLoad_eq, kMaxBlockSize_eq, kChunkHeaderSize_eq] at *
  split_ifs <;> omega

end Segment

/-! ### Claim theorems -/

/-- C1: For every record `R` appended to a segment in a valid state
(write cursor equal to the file size — as holds for a fresh segment and
is preserved by appends — and not inside a block's padding tail),
`ReadAt` applied to the offset returned by `Append R` returns exactly
the bytes of `R`; in particular the empty record round-trips to the
empty byte sequence.  No upper bound on the record length is needed, so
the claim's `L ≤ max_segment_size − 7` range is covered. -/
theorem C1_append_readAt_roundtrip (s : Segment) (data : List Nat)
    (hinv : s.offset = s.file.length)
    (hav : s.offset % kMaxBlockSize + kChunkHeaderSize < kMaxBlockSize) :
    Segment.ReadAt (Segment.Append s data).1 (Segment.Append s data).2 = some data := by
  show Segment.readChunks
      (s.file ++ Segment.planRender (Segment.appendPlan s.offset data).1)
      ((s.file ++ Segment.planRender (Segment.appendPlan s.offset data).1).length + 1)
      s.offset = some data
  have h1 := Segment.planRender_len_ge (Segment.appendPlan s.offset data).1
  apply Segment.appendPlan_read s.offset data s.file hinv.symm hav
  simp only [List.length_append]
  omega

/-- Witness for C1: a three-byte record round-trips on a fresh segment. -/
theorem C1_witness :
    ((Segment.ofFile []).offset = (Segment.ofFile []).file.length)
    ∧ ((Segment.ofFile []).offset % kMaxBlockSize + kChunkHeaderSize < kMaxBlockSize)
    ∧ Segment.ReadAt (Segment.Append (Segment.ofFile []) [1, 2, 3]).1
        (Segment.Append (Segment.ofFile []) [1, 2, 3]).2 = some [1, 2, 3] :=
  ⟨by decide, by decide,
    C1_append_readAt_roundtrip (Segment.ofFile []) [1, 2, 3] (by decide) (by decide)⟩

/-- C3 (code evaluation at the failing input): constructing a Segment
over a pre-existing 1-byte file leaves `next_write_offset` at 0 while
the file size is 1, so the claimed invariant
`next_write_offset = filesystem size` is violated at construction. -/
theorem C3_ctor_offset_not_file_size :
    (Segment.ofFile [0]).offset = 0 ∧ (Segment.ofFile [0]).file.length = 1 := by
  constructor <;> rfl

/-- C4 (code evaluation at the failing input): the first `Write` against
a WAL whose roster is empty (a freshly created WAL directory) reaches
`GetActiveSegment`, which dereferences `rbegin()` of the empty
`std::map` — undefined behaviour, modelled as `none` — instead of
creating the first segment as the claim states. -/
theorem C4_write_empty_roster_crashes :
    (WAL.ofDir ⟨67108864, 0, false⟩ [] ⟨0, 0, 0, 0, 0⟩ 0).segments = []
    ∧ WAL.Write (WAL.ofDir ⟨67108864, 0, false⟩ [] ⟨0, 0, 0, 0, 0⟩ 0) [1] = none := by
  constructor
  · rfl
  · rfl

/-- C5 (code evaluation at the failing input): a WAL loaded from a
directory holding `10.seg` and `2.seg` picks the lexicographically
greatest basename `"2.seg"` as the active segment, not the numerically
greatest id 10, because `segments_` is a `std::map<std::string, ...>`. -/
theorem C5_active_segment_is_lexicographic :
    (WAL.GetActiveSegment
        (WAL.ofDir ⟨67108864, 0, false⟩ [(segBasename 10, []), (segBasename 2, [])]
          ⟨0, 0, 0, 0, 0⟩ 10)).map (fun e => e.1) = some (segBasename 2)
    ∧ segBasename 10 ∈
        (WAL.ofDir ⟨67108864, 0, false⟩ [(segBasename 10, []), (segBasename 2, [])]
          ⟨0, 0, 0, 0, 0⟩ 10).segments.map (fun e => e.1)
    ∧ segBasename 2 ≠ segBasename 10
    ∧ (2 : Nat) < 10 := by
  refine ⟨by decide, by decide, by decide, by decide⟩

/-- C7: `WAL::Sync` has an empty body in the source: it is the identity
on the whole WAL state — in particular it calls `Sync` on no segment and
leaves `sync_op_count` unchanged, contradicting the claim that it syncs
every segment and updates the counter. -/
theorem C7_sync_is_noop (w : WAL) :
    WAL.Sync w = w
    ∧ (WAL.Sync w).io_stats.sync_op_count = w.io_stats.sync_op_count
    ∧ (WAL.Sync w).segments = w.segments :=
  ⟨rfl, rfl, rfl⟩

/-- The WAL state of the C8 failing input: `sync_per_write = false`,
`sync_bytes_threshold = 10`, and io stats after a single 100-byte write
(100 bytes and 1 write op since the last sync). -/
def w8 : WAL :=
  { options := ⟨67108864, 10, false⟩
    segments := [(segBasename 1, Segment.ofFile [])]
    io_stats := ⟨100, 1, 100, 1, 0⟩
    next_segment_id := 1 }

/-- C8 (code evaluation at the failing input): with a 10-byte threshold
and 100 bytes written since the last sync, `NeedSync` returns `false`
because the source compares the write-operation count (1) — not the
byte count — against `sync_bytes_threshold`.  The claim requires
`true` here. -/
theorem C8_needSync_compares_op_count :
    WAL.NeedSync w8 = false
    ∧ w8.options.sync_per_write = false
    ∧ w8.options.sync_bytes_threshold ≠ 0
    ∧ w8.io_stats.cur_bytes_written ≥ w8.options.sync_bytes_threshold := by
  refine ⟨by decide, by decide, by decide, by decide⟩

lemma wsub64_exact (a b : Nat) (hb : b ≤ a) (ha : a < 2 ^ 64) :
    WAL.wsub64 a b = a - b := by
  unfold WAL.wsub64
  have hb2 : b % 2 ^ 64 = b := Nat.mod_eq_of_lt (lt_of_le_of_lt hb ha)
  rw [hb2]
  omega

/-- In the non-`TooLargeData` branch, `Write` either hits the
empty-roster undefined behaviour (`none`) or succeeds with no error
code: it never reports an error. -/
lemma Write_else_shape (w : WAL) (data : List Nat)
    (h : ¬ data.length > WAL.wsub64 w.options.max_segment_sz kChunkHeaderSize) :
    WAL.Write w data = none ∨ ∃ w', WAL.Write w data = some (w', none) := by
  unfold WAL.Write
  rw [if_neg h]
  rcases hga : WAL.GetActiveSegment w with _ | ⟨key, seg⟩
  · left
    simp only [hga]
  · simp only [hga]
    rcases hact : (if Segment.ComputeRequiredSpace data.length >
        WAL.wsub64 w.options.max_segment_sz (Segment.Size seg) then
        WAL.NewSegment w else (w, some (key, seg))).2 with _ | ⟨key1, seg1⟩
    · left
      simp only [hact]
    · right
      simp only [hact]
      exact ⟨_, rfl⟩

/-- C6: `Write` returns `kTooLargeData` exactly when
`record.length + HEADER_SIZE > max_segment_size` (for any sane
configuration `7 ≤ max_segment_size < 2^64`, under which the source's
`int64`/`size_t` subtraction is exact), and in that case the entire WAL
state is returned unchanged. -/
theorem C6_too_large_iff (w : WAL) (data : List Nat)
    (h7 : kChunkHeaderSize ≤ w.options.max_segment_sz)
    (hmax : w.options.max_segment_sz < 2 ^ 64) :
    (WAL.Write w data = some (w, some WALError.kTooLargeData)
      ↔ w.options.max_segment_sz < data.length + kChunkHeaderSize)
    ∧ (∀ w' e, WAL.Write w data = some (w', some e)
        → w' = w ∧ e = WALError.kTooLargeData) := by
  have e3 : kChunkHeaderSize = 7 := rfl
  have hsub : WAL.wsub64 w.options.max_segment_sz kChunkHeaderSize
      = w.options.max_segment_sz - kChunkHeaderSize := wsub64_exact _ _ h7 hmax
  by_cases hcond : data.length > WAL.wsub64 w.options.max_segment_sz kChunkHeaderSize
  · have hgoal : WAL.Write w data = some (w, some WALError.kTooLargeData) := by
      unfold WAL.Write
      rw [if_pos hcond]
    refine ⟨⟨fun _ => ?_, fun _ => hgoal⟩, fun w' e he => ?_⟩
    · rw [hsub] at hcond
      omega
    · rw [hgoal] at he
      simp only [Option.some.injEq, Prod.mk.injEq] at he
      exact ⟨he.1.symm, by cases e; rfl⟩
  · have hfalse : ∀ w' e, WAL.Write w data ≠ some (w', some e) := by
      intro w' e he
      rcases Write_else_shape w data hcond with h1 | ⟨w2, h2⟩
      · rw [he] at h1
        exact Option.noConfusion h1
      · rw [he] at h2
        simp at h2
    refine ⟨⟨fun habs => absurd habs (hfalse w WALError.kTooLargeData), fun hlen => ?_⟩,
      fun w' e he => absurd he (hfalse w' e)⟩
    exfalso
    rw [hsub] at hcond
    omega

/-- The WAL state of the C6 witness: `max_segment_size = 8`, empty
roster. -/
def w6 : WAL :=
  { options := ⟨8, 0, false⟩
    segments := []
    io_stats := ⟨0, 0, 0, 0, 0⟩
    next_segment_id := 0 }

/-- Witness for C6: a 2-byte record against `max_segment_size = 8`
(2 + 7 > 8) is rejected with `kTooLargeData`, state unchanged. -/
theorem C6_witness :
    kChunkHeaderSize ≤ w6.options.max_segment_sz
    ∧ w6.options.max_segment_sz < 2 ^ 64
    ∧ WAL.Write w6 [1, 2] = some (w6, some WALError.kTooLargeData) :=
  ⟨by decide, by decide,
    (C6_too_large_iff w6 [1, 2] (by decide) (by decide)).1.mpr (by decide)⟩

/-- C9: For every chunk emitted by `Append` (every entry of the append
plan, at any starting offset), the stored 4-byte little-endian CRC field
equals the CRC-32 — initial value 0, no xor-out — of the header bytes at
offsets 4..6 followed by the payload; the CRC field itself is excluded
from the input, and the payload is laid out after the 7-byte header. -/
theorem C9_chunk_crc (off : Nat) (data : List Nat) (c : Nat × ChunkType × List Nat)
    (_hc : c ∈ (Segment.appendPlan off data).1) :
    (Segment.EncodeDataToChunk c.2.2 c.2.1).take 4
      = putUint32LE (crc32Update (crc32Update 0
          (((Segment.EncodeDataToChunk c.2.2 c.2.1).drop 4).take 3)) c.2.2)
    ∧ (Segment.EncodeDataToChunk c.2.2 c.2.1).drop kChunkHeaderSize = c.2.2 :=
  Segment.encode_crc c.2.2 c.2.1

/-- Witness for C9: the single `kFull` chunk of a 2-byte append. -/
theorem C9_witness :
    ((0, ChunkType.kFull, [1, 2]) ∈ (Segment.appendPlan 0 [(1 : Nat), 2]).1)
    ∧ ((Segment.EncodeDataToChunk [1, 2] ChunkType.kFull).take 4
        = putUint32LE (crc32Update (crc32Update 0
            (((Segment.EncodeDataToChunk [1, 2] ChunkType.kFull).drop 4).take 3)) [1, 2])
      ∧ (Segment.EncodeDataToChunk [1, 2] ChunkType.kFull).drop kChunkHeaderSize = [1, 2]) :=
  ⟨by decide, C9_chunk_crc 0 [1, 2] (0, ChunkType.kFull, [1, 2]) (by decide)⟩

/-- C10 counterexample: for the empty record (`L = 0`, which is
`0 mod 32761 = 0` hence claimed required space `0`),
`ComputeRequiredSpace` returns 0, yet appending it to a fresh segment at
the block-aligned offset 0 grows the file by 7 bytes (the header of the
empty `kFull` chunk). -/
theorem C10_zero_record_growth :
    Segment.ComputeRequiredSpace 0 = 0
    ∧ (Segment.ofFile []).offset % kMaxBlockSize = 0
    ∧ (Segment.ofFile []).file.length = 0
    ∧ (Segment.Append (Segment.ofFile []) []).1.file.length = 7 := by
  refine ⟨by decide, by decide, by decide, by decide⟩

/-- C10 (amended): `ComputeRequiredSpace L` equals
`⌊L / 32761⌋·32768 + (L mod 32761) + (7 if L mod 32761 ≠ 0 else 0)`
(the claim's formula — definitional), and it equals the actual number of
bytes a record of length `L` appended at a block-aligned offset grows
the file by, provided `L > 0` and `L mod 32761 ≤ 32753` (so the final
chunk triggers no trailing block padding; for `L = 0` the file grows by
7 bytes, and for `L mod 32761 ∈ [32754, 32760]` it additionally grows by
the `32761 − L mod 32761` zero bytes padding the block tail). -/
theorem C10_required_space (s : Segment) (data : List Nat)
    (halign : s.offset % kMaxBlockSize = 0)
    (h0 : 0 < data.length)
    (hr : data.length % kMaxPayLoad ≤ 32753) :
    (Segment.Append s data).1.file.length
      = s.file.length + Segment.ComputeRequiredSpace data.length
    ∧ Segment.ComputeRequiredSpace data.length
      = data.length / kMaxPayLoad * kMaxBlockSize + data.length % kMaxPayLoad
        + (if data.length % kMaxPayLoad = 0 then 0 else kChunkHeaderSize) := by
  refine ⟨?_, rfl⟩
  show (s.file ++ Segment.planRender (Segment.appendPlan s.offset data).1).length
    = s.file.length + Segment.ComputeRequiredSpace data.length
  rw [List.length_append]
  rw [Segment.appendPlan_growth s.offset data halign h0]
  rw [Segment.chainAdv_eq_requiredSpace data.length h0 hr]

/-- Witness for C10 (amended): a 1-byte record at offset 0 grows the
file by `ComputeRequiredSpace 1 = 8` bytes. -/
theorem C10_witness :
    ((Segment.ofFile []).offset % kMaxBlockSize = 0)
    ∧ (0 < ([(5 : Nat)] : List Nat).length)
    ∧ (([(5 : Nat)] : List Nat).length % kMaxPayLoad ≤ 32753)
    ∧ (Segment.Append (Segment.ofFile []) [5]).1.file.length
        = (Segment.ofFile []).file.length + Segment.ComputeRequiredSpace ([(5 : Nat)] : List Nat).length :=
  ⟨by decide, by decide, by decide,
    (C10_required_space (Segment.ofFile []) [5] (by decide) (by decide) (by decide)).1⟩

/-- C2: the greedy chunk layout of `Append` from any valid write cursor
`off` (not inside a block's padding tail): the payloads concatenate back
to the record; the chunk types are one `kFull` when the record fits the
current block's payload capacity, else `kFirst` (with exactly that
capacity) then `kMiddle`s (each with the full per-block capacity
`kMaxPayLoad`) then one `kLast`; no chunk header starts at a position
whose remainder-to-block-end is `≤ 7`; no chunk straddles a block
boundary; each chunk is rendered as its encoding followed by at most 7
zero padding bytes; and the cursor advances by exactly the rendered
bytes. -/
theorem C2_append_layout (off : Nat) (data : List Nat)
    (hav : off % kMaxBlockSize + kChunkHeaderSize < kMaxBlockSize) :
    (((Segment.appendPlan off data).1.map fun c => c.2.2).flatten = data)
    ∧ (if data.length ≤ Segment.availableSpace off - kChunkHeaderSize then
        (Segment.appendPlan off data).1.map (fun c => c.2.1) = [ChunkType.kFull]
       else
        ((Segment.appendPlan off data).1.map (fun c => c.2.1)
            = ChunkType.kFirst ::
              (List.replicate ((Segment.appendPlan off data).1.length - 2) ChunkType.kMiddle
                ++ [ChunkType.kLast])
        ∧ (∀ c ∈ (Segment.appendPlan off data).1, c.2.1 = ChunkType.kFirst
            → c.2.2.length = Segment.availableSpace off - kChunkHeaderSize)
        ∧ (∀ c ∈ (Segment.appendPlan off data).1, c.2.1 = ChunkType.kMiddle
            → c.2.2.length = kMaxPayLoad)))
    ∧ (∀ c ∈ (Segment.appendPlan off data).1,
        c.1 % kMaxBlockSize + kChunkHeaderSize < kMaxBlockSize
        ∧ c.1 % kMaxBlockSize + kChunkHeaderSize + c.2.2.length ≤ kMaxBlockSize)
    ∧ (∀ c ∈ (Segment.appendPlan off data).1, ∃ p, p ≤ kChunkHeaderSize ∧
        Segment.encodeBytes c.1 c.2.2 c.2.1
          = Segment.EncodeDataToChunk c.2.2 c.2.1 ++ List.replicate p 0)
    ∧ (Segment.planRender (Segment.appendPlan off data).1).length
        = (Segment.appendPlan off data).2 - off := by
  have e1 : kMaxPayLoad = 32761 := rfl
  have e2 : kMaxBlockSize = 32768 := rfl
  have e3 : kChunkHeaderSize = 7 := rfl
  have hav' : off % 32768 + 7 < 32768 := hav
  have hQ : Segment.availableSpace off = 32768 - off % 32768 := rfl
  have hmods : off % kMaxBlockSize = off % 32768 := rfl
  by_cases hfull : data.length ≤ Segment.availableSpace off - kChunkHeaderSize
  · have heq : Segment.appendPlan off data
        = ([(off, ChunkType.kFull, data)], Segment.encodeEnd off data) := by
      simp only [Segment.appendPlan]
      rw [if_pos hfull]
    rw [heq]
    refine ⟨by simp, ?_, ?_, ?_, ?_⟩
    · rw [if_pos hfull]
      simp
    · intro c hc
      simp only [List.mem_singleton] at hc
      subst hc
      refine ⟨hav, ?_⟩
      show off % kMaxBlockSize + kChunkHeaderSize + data.length ≤ kMaxBlockSize
      omega
    · intro c _
      exact Segment.encodeBytes_eq_pad c.1 c.2.2 c.2.1
    · simp only [Segment.planRender, List.append_nil]
      exact (Segment.encodeBytes_length off data ChunkType.kFull).1
  · have heq : Segment.appendPlan off data
        = ((off, ChunkType.kFirst, data.take (Segment.availableSpace off - kChunkHeaderSize)) ::
            (Segment.appendChunks
              (data.drop (Segment.availableSpace off - kChunkHeaderSize)).length
              (Segment.encodeEnd off (data.take (Segment.availableSpace off - kChunkHeaderSize)))
              (data.drop (Segment.availableSpace off - kChunkHeaderSize))).1,
           (Segment.appendChunks
              (data.drop (Segment.availableSpace off - kChunkHeaderSize)).length
              (Segment.encodeEnd off (data.take (Segment.availableSpace off - kChunkHeaderSize)))
              (data.drop (Segment.availableSpace off - kChunkHeaderSize))).2) := by
      simp only [Segment.appendPlan]
      rw [if_neg hfull]
    have hlong : Segment.availableSpace off - kChunkHeaderSize < data.length := by omega
    have hflen : (data.take (Segment.availableSpace off - kChunkHeaderSize)).length
        = Segment.availableSpace off - kChunkHeaderSize := by
      rw [List.length_take]
      omega
    have hmod : (off + kChunkHeaderSize
        + (data.take (Segment.availableSpace off - kChunkHeaderSize)).length)
        % kMaxBlockSize = 0 := by
      show (off + kChunkHeaderSize
        + (data.take (Segment.availableSpace off - kChunkHeaderSize)).length) % 32768 = 0
      omega
    have hnp := Segment.encode_no_pad off
      (data.take (Segment.availableSpace off - kChunkHeaderSize)) ChunkType.kFirst hmod
    have hoff2 : Segment.encodeEnd off
        (data.take (Segment.availableSpace off - kChunkHeaderSize)) % kMaxBlockSize = 0 := by
      rw [hnp.2]
      show (off + kChunkHeaderSize
        + (data.take (Segment.availableSpace off - kChunkHeaderSize)).length) % 32768 = 0
      omega
    have hrest1 : 1 ≤ (data.drop (Segment.availableSpace off - kChunkHeaderSize)).length := by
      rw [List.length_drop]
      omega
    obtain ⟨sp1, sp2, sp3, sp4, sp5, sp6, sp7, sp8⟩ :=
      Segment.appendChunks_spec
        (data.drop (Segment.availableSpace off - kChunkHeaderSize)).length
        (Segment.encodeEnd off (data.take (Segment.availableSpace off - kChunkHeaderSize)))
        (data.drop (Segment.availableSpace off - kChunkHeaderSize)) hoff2 hrest1 le_rfl
    have hnotfirst : ∀ c ∈ (Segment.appendChunks
        (data.drop (Segment.availableSpace off - kChunkHeaderSize)).length
        (Segment.encodeEnd off (data.take (Segment.availableSpace off - kChunkHeaderSize)))
        (data.drop (Segment.availableSpace off - kChunkHeaderSize))).1,
        c.2.1 = ChunkType.kMiddle ∨ c.2.1 = ChunkType.kLast := by
      intro c hc
      have hmem : c.2.1 ∈ List.map (fun c => c.2.1) (Segment.appendChunks
          (data.drop (Segment.availableSpace off - kChunkHeaderSize)).length
          (Segment.encodeEnd off (data.take (Segment.availableSpace off - kChunkHeaderSize)))
          (data.drop (Segment.availableSpace off - kChunkHeaderSize))).1 :=
        List.mem_map_of_mem _ hc
      rw [sp2] at hmem
      rcases List.mem_append.mp hmem with h | h
      · exact Or.inl (List.eq_of_mem_replicate h)
      · simp only [List.mem_singleton] at h
        exact Or.inr h
    rw [heq]
    refine ⟨?_, ?_, ?_, ?_, ?_⟩
    · simp only [List.map_cons, List.flatten_cons]
      rw [sp1]
      exact List.take_append_drop _ _
    · rw [if_neg hfull]
      refine ⟨?_, ?_, ?_⟩
      · simp only [List.map_cons, List.length_cons]
        rw [sp2]
        congr 2
      · intro c hc
        rcases List.mem_cons.mp hc with h | h
        · subst h
          intro _
          exact hflen
        · intro hfirst
          rcases hnotfirst c h with hm | hm <;> rw [hfirst] at hm <;> cases hm
      · intro c hc
        rcases List.mem_cons.mp hc with h | h
        · subst h
          intro habs
          cases habs
        · exact fun hm => ((sp3 c h).2.1 hm)
    · intro c hc
      rcases List.mem_cons.mp hc with h | h
      · subst h
        refine ⟨hav, ?_⟩
        show off % kMaxBlockSize + kChunkHeaderSize
          + (data.take (Segment.availableSpace off - kChunkHeaderSize)).length ≤ kMaxBlockSize
        omega
      · have h3 := sp3 c h
        constructor
        · rw [h3.1]
          omega
        · rw [h3.1]
          have := h3.2.2
          omega
    · intro c _
      exact Segment.encodeBytes_eq_pad c.1 c.2.2 c.2.1
    · simp only [Segment.planRender, List.length_append]
      have hEL := Segment.encodeBytes_length off
        (data.take (Segment.availableSpace off - kChunkHeaderSize)) ChunkType.kFirst
      rw [hEL.1, sp4]
      have hnpe := hnp.2
      omega

/-- Witness for C2: a 2-byte record appended at offset 0. -/
theorem C2_witness :
    ((0 : Nat) % kMaxBlockSize + kChunkHeaderSize < kMaxBlockSize)
    ∧ ((((Segment.appendPlan 0 [1, 2]).1.map fun c => c.2.2).flatten = [1, 2])
    ∧ (if ([(1 : Nat), 2] : List Nat).length ≤ Segment.availableSpace 0 - kChunkHeaderSize then
        (Segment.appendPlan 0 [1, 2]).1.map (fun c => c.2.1) = [ChunkType.kFull]
       else
        ((Segment.appendPlan 0 [1, 2]).1.map (fun c => c.2.1)
            = ChunkType.kFirst ::
              (List.replicate ((Segment.appendPlan 0 [1, 2]).1.length - 2) ChunkType.kMiddle
                ++ [ChunkType.kLast])
        ∧ (∀ c ∈ (Segment.appendPlan 0 [1, 2]).1, c.2.1 = ChunkType.kFirst
            → c.2.2.length = Segment.availableSpace 0 - kChunkHeaderSize)
        ∧ (∀ c ∈ (Segment.appendPlan 0 [1, 2]).1, c.2.1 = ChunkType.kMiddle
            → c.2.2.length = kMaxPayLoad)))
    ∧ (∀ c ∈ (Segment.appendPlan 0 [1, 2]).1,
        c.1 % kMaxBlockSize + kChunkHeaderSize < kMaxBlockSize
        ∧ c.1 % kMaxBlockSize + kChunkHeaderSize + c.2.2.length ≤ kMaxBlockSize)
    ∧ (∀ c ∈ (Segment.appendPlan 0 [1, 2]).1, ∃ p, p ≤ kChunkHeaderSize ∧
        Segment.encodeBytes c.1 c.2.2 c.2.1
          = Segment.EncodeDataToChunk c.2.2 c.2.1 ++ List.replicate p 0)
    ∧ (Segment.planRender (Segment.appendPlan 0 [1, 2]).1).length
        = (Segment.appendPlan 0 [1, 2]).2 - 0) :=
  ⟨by decide, C2_append_layout 0 [1, 2] (by decide)⟩

end RoseKV
